import Mathlib

/-!
Verification development for the itassets asset dependency graph and
validation-rule engine (`itassets/itassets.py`, type registry in
`asset_defs/it_assets/itasset_defs.py` / `itassets/dependency_types.py`).

The Python code is shallowly embedded: dict-shaped asset records become a
structure, generator-based validators become functions returning
`Except Unit (List Issue)` (a `.error` models a Python exception raised
before any `yield` of that validator, which is the only way these
validators can fail), and `re.search` is modelled by a Brzozowski
derivative matcher over a token alphabet with begin/end sentinels
standing for the `^` and `$` anchors.
-/

/-! ## Regular expressions (model of the `re` module usage)

The validator code only uses `re.search` / `re.compile(...).search` with
patterns built from literals, `.`, `.*`, alternation groups `(a|b|...)`
and the `$` / `^` anchors.  We model a pattern as an explicit AST and
`re.search` as full-token-list matching of `any* ⬝ pattern ⬝ any*` against
`bosT :: chars ++ [eosT]`:  the sentinels let `^` / `$` match exactly at
the string's ends while `dot` matches only real characters. -/

/-- A token of the matching alphabet: begin sentinel, end sentinel, or a
character of the subject string. -/
inductive Tok where
  | bosT : Tok
  | eosT : Tok
  | ch (c : Char) : Tok
deriving DecidableEq

/-- Regular-expression AST (the compiled form of the pattern strings in
the source; `emp` is the empty language used by derivatives). -/
inductive Regex where
  | emp : Regex
  | eps : Regex
  | chr (c : Char) : Regex
  | dot : Regex
  | bos : Regex
  | eos : Regex
  | seq (a b : Regex) : Regex
  | alt (a b : Regex) : Regex
  | star (a : Regex) : Regex
deriving DecidableEq

/-- Does the regex accept the empty token list? -/
def Regex.nullable : Regex → Bool
  | .emp => false
  | .eps => true
  | .chr _ => false
  | .dot => false
  | .bos => false
  | .eos => false
  | .seq a b => a.nullable && b.nullable
  | .alt a b => a.nullable || b.nullable
  | .star _ => true

/-- Brzozowski derivative by one token. -/
def Regex.deriv : Regex → Tok → Regex
  | .emp, _ => .emp
  | .eps, _ => .emp
  | .chr c, t => if t = .ch c then .eps else .emp
  | .dot, t => match t with
    | .ch _ => .eps
    | _ => .emp
  | .bos, t => if t = .bosT then .eps else .emp
  | .eos, t => if t = .eosT then .eps else .emp
  | .seq a b, t =>
    if a.nullable then .alt (.seq (a.deriv t) b) (b.deriv t)
    else .seq (a.deriv t) b
  | .alt a b, t => .alt (a.deriv t) (b.deriv t)
  | .star a, t => .seq (a.deriv t) (.star a)

/-- Match a regex against a whole token list via repeated derivatives. -/
def Regex.matchToks : Regex → List Tok → Bool
  | r, [] => r.nullable
  | r, t :: ts => (r.deriv t).matchToks ts

/-- A regex accepting any single token (character or sentinel). -/
def anyTok : Regex := .alt .dot (.alt .bos .eos)

/-- Token list of a subject string: begin sentinel, characters, end
sentinel. -/
def toksOf (s : String) : List Tok :=
  .bosT :: (s.toList.map Tok.ch ++ [.eosT])

/-- Model of Python `re.search(r, s)` (truthiness of the match object):
some part of `s` matches `r`, with `^` / `$` matched by the sentinels. -/
def re_search (r : Regex) (s : String) : Bool :=
  Regex.matchToks (.seq (.star anyTok) (.seq r (.star anyTok))) (toksOf s)

/-- Literal pattern: the sequence of its characters. -/
def lit (s : String) : Regex :=
  s.toList.foldr (fun c r => Regex.seq (Regex.chr c) r) Regex.eps

/-- Declarative matching semantics of `Regex`, used to prove general facts
about the matcher (the executable side is `Regex.matchToks`). -/
inductive RMatch : Regex → List Tok → Prop where
  | eps : RMatch .eps []
  | chr (c : Char) : RMatch (.chr c) [.ch c]
  | dot (c : Char) : RMatch .dot [.ch c]
  | bos : RMatch .bos [.bosT]
  | eos : RMatch .eos [.eosT]
  | seq {a b : Regex} {ts us : List Tok} :
      RMatch a ts → RMatch b us → RMatch (.seq a b) (ts ++ us)
  | altL {a b : Regex} {ts : List Tok} : RMatch a ts → RMatch (.alt a b) ts
  | altR {a b : Regex} {ts : List Tok} : RMatch b ts → RMatch (.alt a b) ts
  | starNil {a : Regex} : RMatch (.star a) []
  | starCons {a : Regex} {ts us : List Tok} :
      RMatch a ts → RMatch (.star a) us → RMatch (.star a) (ts ++ us)

/-! ## Data model

An asset record (`Asset record schema`, spec §6).  The source keeps assets
as YAML dicts; the validation core reads `id`, `type`, `name`,
`depends_on`, `tags`, `open_issues` and free-form string fields
(`location`, `owner`, `size`, …) which we keep in `attrs`.  `id` and
`type` are modelled as always present (records missing them are outside
the claims considered here). -/
structure Asset where
  id : String
  /-- the `type` key of the record -/
  type_ : String
  name : String
  depends_on : List String
  tags : List String
  open_issues : List String
  /-- free-form string fields (`location`, `owner`, `size`, …); a missing
  field is the empty string, matching Python falsiness of `asset.get(f)` -/
  attrs : List (String × String)
deriving DecidableEq

/-- The `AssetType` namedtuple from `itassets/dependency_types.py`.  The
`depends` regex strings are paired with their compiled `Regex` AST;
`pfx` is the source's `prefix` field. -/
structure AssetType where
  description : String
  style : String
  color : String
  tags : List String
  fields : List String
  depends : List (String × Regex)
  pfx : String
deriving DecidableEq

/-- A type registry: the `ASSET_TYPE` dict, as an association list. -/
abbrev Registry := List (String × AssetType)

/-- Dict lookup `ASSET_TYPE[t]` / `t in ASSET_TYPE` (keys are unique in
the source dict, so first match is the dict's entry). -/
def ATget (ndef : Registry) (t : String) : Option AssetType :=
  (List.find? (fun kv => kv.1 = t) ndef).map (·.2)

/-! The `ASSET_TYPE` registry of `asset_defs/it_assets/itasset_defs.py`.
Each `depends` entry is the source's pattern string together with its
compiled AST. -/

/-- Pattern `(cloud/service|container/.*|vm/virtualbox|physical/server/service$|website/static)`. -/
def pat_app : String × Regex :=
  ("(cloud/service|container/.*|vm/virtualbox|physical/server/service$|website/static)",
   .alt (lit "cloud/service")
     (.alt (.seq (lit "container/") (.star .dot))
       (.alt (lit "vm/virtualbox")
         (.alt (.seq (lit "physical/server/service") .eos)
           (lit "website/static")))))

/-- Pattern `(cloud/service|container/.*|vm/virtualbox|physical/server/service$)`. -/
def pat_db : String × Regex :=
  ("(cloud/service|container/.*|vm/virtualbox|physical/server/service$)",
   .alt (lit "cloud/service")
     (.alt (.seq (lit "container/") (.star .dot))
       (.alt (lit "vm/virtualbox")
         (.seq (lit "physical/server/service") .eos))))

/-- Pattern `(physical/server|cloud/service)`. -/
def pat_srv_or_cloud : String × Regex :=
  ("(physical/server|cloud/service)",
   .alt (lit "physical/server") (lit "cloud/service"))

/-- Pattern `storage/.*`. -/
def pat_storage : String × Regex :=
  ("storage/.*", .seq (lit "storage/") (.star .dot))

def ASSET_TYPE : Registry := [
  ("application/external",
   ⟨"\x22Terminal\x22 asset type, that users use",
    "shape=oval, width=1.5, rank=max", "green", ["top"],
    ["location", "owner"], [pat_app], "app"⟩),
  ("application/internal",
   ⟨"\x22Terminal\x22 asset type, that users use",
    "shape=oval, width=1.5, rank=max, peripheries=2", "green", ["top"],
    ["location", "owner"], [pat_app], "app"⟩),
  ("backup",
   ⟨"A backup solution", "shape=component, width=1.5", "white", [],
    ["location"], [], "bak"⟩),
  ("cloud/service",
   ⟨"A service (web-server, RDMS) running in the cloud",
    "shape=polygon, width=1.25, sides=9", "pink", [],
    ["location"], [("resource/deployment", lit "resource/deployment")], "csvc"⟩),
  ("container/docker",
   ⟨"A docker container (image instance)", "shape=\x22box3d\x22, width=1.5",
    "green", [], [],
    [("resource/deployment", lit "resource/deployment"),
     pat_srv_or_cloud, pat_storage], "con"⟩),
  ("database",
   ⟨"A database on a server", "shape=house", "white", [], [],
    [pat_db, ("backup", lit "backup")], "db"⟩),
  ("drive",
   ⟨"A physical drive", "shape=cylinder, width=1.25", "cyan", [],
    ["location", "size"], [("physical/server", lit "physical/server")], "drv"⟩),
  ("physical/server",
   ⟨"A real physical server", "shape=box, width=1", "gray", ["bottom"],
    [], [], "srv"⟩),
  ("physical/server/service",
   ⟨"A service (Django, web app. etc.) running directly on a physical server",
    "shape=pentagon, width=1.25", "pink", [], [],
    [("physical/server", lit "physical/server"),
     ("resource/deployment", lit "resource/deployment"),
     pat_storage], "psvc"⟩),
  ("physical/server/service/infrastructure",
   ⟨"A service (web-server, RDMS) running directly on a physical server",
    "shape=octagon, width=1.25", "pink", [], [],
    [("physical/server", lit "physical/server"),
     ("resource/deployment", lit "resource/deployment"),
     pat_storage], "psvc"⟩),
  ("resource/deployment",
   ⟨"The source / deployment resource for an asset, e.g. the Dockerfile for a Docker image",
    "shape=note, width=1.5", "cyan", ["bottom"], ["location"], [], "dply"⟩),
  ("storage/local",
   ⟨"A local storage solutions, requires backup", "shape=folder,width=1.5",
    "white", [], ["location"],
    [("backup", lit "backup"), ("drive", lit "drive")], "sto"⟩),
  ("vm/virtualbox",
   ⟨"A VirtualBox VM", "shape=box, peripheries=\x222\x22, width=1.4", "pink",
    [], [],
    [("physical/server", lit "physical/server"), pat_storage], "vbx"⟩),
  ("website/static",
   ⟨"A static website, may include javascript", "shape=tab,width=1",
    "white", [], ["location"],
    [("resource/deployment", lit "resource/deployment"), pat_storage,
     ("physical/server/service", lit "physical/server/service")], "wss"⟩)]

/-! ## Dependency-id extraction (`asset_dep_ids`) -/

/-- Is the first list a leading segment of the second?  (structurally
recursive, so kernel evaluation by `decide` can compute it). -/
def listPre : List Char → List Char → Bool
  | [], _ => true
  | _ :: _, [] => false
  | a :: as, b :: bs => a = b && listPre as bs

/-- Does `needle` occur as a contiguous segment of `hay`? -/
def subAt : List Char → List Char → Bool
  | needle, [] => needle.isEmpty
  | needle, c :: rest => listPre needle (c :: rest) || subAt needle rest

/-- Model of `s.split()[0]`: first whitespace-separated token — the run of
non-whitespace after any leading whitespace (empty string for a
token-less input, where the Python would raise IndexError; no claim
involves such an input). -/
def firstToken (s : String) : String :=
  String.mk ((s.toList.dropWhile (fun c => c.isWhitespace)).takeWhile
    (fun c => !c.isWhitespace))

/-- Model of `'INSUF' in i`: substring test. -/
def hasINSUF (s : String) : Bool := subAt "INSUF".toList s.toList

/-- Model of `s.startswith('^')`. -/
def startsWithCaret (s : String) : Bool := listPre ['^'] s.toList

/-- Model of `asset['id'].split('_')[0]`: the characters before the first `_`. -/
def idPrefix (s : String) : String :=
  String.mk (s.toList.takeWhile (fun c => c ≠ '_'))

/-- Model of `asset_dep_ids(asset)` (the default `insufficient=False` form): first
token of every `depends_on` expression, INSUF-marked ones included. -/
def asset_dep_ids (a : Asset) : List String :=
  a.depends_on.map firstToken

/-- Model of `asset_dep_ids(asset, insufficient=True)`: only expressions without
the `INSUF` marker. -/
def asset_dep_ids_suff (a : Asset) : List String :=
  (a.depends_on.filter (fun i => !hasINSUF i)).map firstToken

/-! ## Graph maps built by `validate_assets` / `propagate_dependent` -/

/-- Dict get on an association list of assets. -/
def alist_get (m : List (String × Asset)) (k : String) : Option Asset :=
  (List.find? (fun kv => kv.1 = k) m).map (·.2)

/-- The `seen` map of `validate_assets`: `seen[id_] = asset` only for the
first occurrence of an id (later duplicates are rejected). -/
def seenOf (assets : List Asset) : String → Option Asset :=
  fun k => alist_get (assets.map (fun a => (a.id, a))) k

/-- The dict comprehension `{i['id']: i for i in assets}` (used by
`propagate_dependent` and `write_map`): the last occurrence of an id
wins. -/
def lookupOf (assets : List Asset) : String → Option Asset :=
  fun k => alist_get ((assets.map (fun a => (a.id, a))).reverse) k

/-- The `dependents` defaultdict: for each asset and each extracted
dependency id `d`, the asset's id is appended to `dependents[d]`; a key
is present iff its list is non-empty. -/
def dependentsOf (assets : List Asset) : String → List String :=
  fun d => assets.flatMap (fun a =>
    ((asset_dep_ids a).filter (fun dep => dep = d)).map (fun _ => a.id))

/-! ## Validation rules (`@validator('.*')` functions)

Each validator may raise before yielding anything (a `KeyError` from
indexing the registry with an unknown type); this is the only failure
mode of these validators, so a validator is modelled as all-or-nothing:
`.ok issues` or `.error ()`. -/

/-- A `(severity, message)` pair. -/
abbrev Issue := String × String

/-- Validator signature: `(asset, lookup, dependents)`, yielding issues or
raising. -/
abbrev Validator :=
  Asset → (String → Option Asset) → (String → List String) → Except Unit (List Issue)

def unknownTypeMsg (t : String) : String := "Has unknown type " ++ t
def undefMsg (d : String) : String := "Depends on undefined asset ID=" ++ d
def noteMsg (p : String) : String :=
  "Specifically excludes \x27" ++ p ++ "\x27 dependency"
def warnDefineMsg (t p : String) : String :=
  "\x27" ++ t ++ "\x27 should define \x27" ++ p ++ "\x27 dependency"
def missingFieldMsg (t f : String) : String :=
  "\x27" ++ t ++ "\x27 definition missing \x27" ++ f ++ "\x27 field"

/-- Validator `known_asset_type`. -/
def known_asset_type (ndef : Registry) : Validator := fun asset _ _ =>
  .ok (if (ATget ndef asset.type_).isNone
       then [("ERROR", unknownTypeMsg asset.type_)] else [])

/-- Validator `no_undef_depends`. -/
def no_undef_depends : Validator := fun asset lookup _ =>
  .ok ((asset_dep_ids asset).filterMap (fun dep =>
    if (lookup dep).isNone && !(startsWithCaret dep)
    then some ("WARNING", undefMsg dep) else none))

/-- Validator `known_id_prefix`: `asset['id'].split('_')[0]` must be a registered
type prefix. -/
def known_id_prefix (ndef : Registry) : Validator := fun asset _ _ =>
  .ok (if idPrefix asset.id ∈ ndef.map (fun kv => kv.2.pfx)
       then [] else [("WARNING", "Has unknown prefix")])

/-- Validator `dependents_if_not_top`; indexing `ASSET_TYPE[asset['type']]` raises
on an unknown type (only reached when the asset has no dependents). -/
def dependents_if_not_top (ndef : Registry) : Validator := fun asset _ dependents =>
  if (dependents asset.id).isEmpty then
    match ATget ndef asset.type_ with
    | none => .error ()
    | some t =>
      .ok (if "top" ∈ t.tags then []
           else [("WARNING", "Non-top-level asset has no dependents")])
  else .ok []

/-- Validator `dependencies_if_not_bottom`; registry indexed only when `depends_on`
is empty. -/
def dependencies_if_not_bottom (ndef : Registry) : Validator := fun asset _ _ =>
  if asset.depends_on.isEmpty then
    match ATget ndef asset.type_ with
    | none => .error ()
    | some t =>
      .ok (if "bottom" ∈ t.tags then []
           else [("WARNING", "Non-bottom-level asset has no dependencies")])
  else .ok []

/-- Validator `has_open_issues`. -/
def has_open_issues : Validator := fun asset _ _ =>
  .ok (if asset.open_issues.isEmpty then [] else [("WARNING", "Has open issues")])

/-- Validator `tagged_needs_work`. -/
def tagged_needs_work : Validator := fun asset _ _ =>
  .ok (if "needs_work" ∈ asset.tags
       then [("WARNING", "Has \x27needs_work\x27 tag")] else [])

/-- Model of `asset.get(field)` falsiness for the free-form string fields checked
by `check_fields`: missing and empty coincide. -/
def asset_field (a : Asset) (k : String) : String :=
  (((List.find? (fun kv => kv.1 = k) a.attrs)).map (·.2)).getD ""

/-- Validator `check_fields`; `ASSET_TYPE[asset['type']]` raises on an unknown
type. -/
def check_fields (ndef : Registry) : Validator := fun asset _ _ =>
  match ATget ndef asset.type_ with
  | none => .error ()
  | some t =>
    .ok (t.fields.filterMap (fun field =>
      if asset_field asset field = ""
      then some ("WARNING", missingFieldMsg asset.type_ field) else none))

/-- Validator `check_depends`: for each required pattern, a `^pattern` entry among
the dependency ids yields a NOTE; otherwise, unless some non-INSUF
dependency's resolved type (`NO-TYPE` when unresolved) matches the
pattern by `re.search`, a WARNING.  Raises on an unknown type. -/
def check_depends (ndef : Registry) : Validator := fun asset lookup _ =>
  match ATget ndef asset.type_ with
  | none => .error ()
  | some t =>
    .ok (t.depends.flatMap (fun dep =>
      if ("^" ++ dep.1) ∈ asset_dep_ids asset then [("NOTE", noteMsg dep.1)]
      else if (asset_dep_ids_suff asset).any (fun i =>
          re_search dep.2 (match lookup i with
            | some b => b.type_
            | none => "NO-TYPE")) then []
      else [("WARNING", warnDefineMsg asset.type_ dep.1)]))

/-- The validators in registration (class-body) order. -/
def VALIDATORS_ALL (ndef : Registry) : List Validator :=
  [known_asset_type ndef, no_undef_depends, known_id_prefix ndef,
   dependents_if_not_top ndef, dependencies_if_not_bottom ndef,
   has_open_issues, tagged_needs_work, check_fields ndef,
   check_depends ndef]

/-- The `VALIDATORS_COMPILED` table: the one `'.*'` pattern mapped to all
validators in registration order. -/
def VALIDATORS_COMPILED (ndef : Registry) : List (Regex × List Validator) :=
  [(.star .dot, VALIDATORS_ALL ndef)]

/-! ## The validation engine (`validate_assets`) -/

/-- Run a list of validators on one asset, extending the issue list;
`true` in the second component records a raised exception, which aborts
the remaining validators and keeps the issues accumulated so far. -/
def run_validators (vs : List Validator) (a : Asset)
    (lookup : String → Option Asset) (deps : String → List String) :
    List Issue × Bool :=
  match vs with
  | [] => ([], false)
  | v :: rest =>
    match v a lookup deps with
    | .error _ => ([], true)
    | .ok is =>
      let r := run_validators rest a lookup deps
      (is ++ r.1, r.2)

/-- Model of `for pattern, validators in VALIDATORS_COMPILED.items(): if
pattern.search(type): ...` with exception propagation. -/
def run_patterns (pats : List (Regex × List Validator)) (a : Asset)
    (lookup : String → Option Asset) (deps : String → List String) :
    List Issue × Bool :=
  match pats with
  | [] => ([], false)
  | (p, vs) :: rest =>
    if re_search p a.type_ then
      let r := run_validators vs a lookup deps
      if r.2 then r
      else
        let r2 := run_patterns rest a lookup deps
        (r.1 ++ r2.1, r2.2)
    else run_patterns rest a lookup deps

/-- Issues accumulated for one asset by the rule loop, plus the
exception flag. -/
def run_asset (ndef : Registry) (a : Asset)
    (lookup : String → Option Asset) (deps : String → List String) :
    List Issue × Bool :=
  run_patterns (VALIDATORS_COMPILED ndef) a lookup deps

/-- The duplicate-id scan of `validate_assets`: `seen` collects first
occurrences, the sticky flag records any repeat. -/
def dup_scan (seen : List String) (dup : Bool) : List String → Bool
  | [] => dup
  | i :: rest =>
    if i ∈ seen then dup_scan seen true rest
    else dup_scan (seen ++ [i]) dup rest

/-- The `duplicate_IDs` flag after the first loop of `validate_assets`. -/
def duplicate_IDs (assets : List Asset) : Bool :=
  dup_scan [] false (assets.map (·.id))

/-- The issue report: `failures`, an id-keyed insertion-ordered map. -/
abbrev Failures := List (String × List Issue)

/-- Lookup in a `Failures` map. -/
def fget (m : Failures) (k : String) : Option (List Issue) :=
  (List.find? (fun kv => kv.1 = k) m).map (·.2)

/-- How a `validate_assets` run can abort: the duplicate-id hard stop, or
an exception raised by a validation rule (the `failures` map as filled in
by the `finally` clause at that moment is carried along: the source
prints it and lets the exception propagate). -/
inductive VErr where
  | duplicateIDs : VErr
  | ruleFailure (fs : Failures) : VErr
deriving DecidableEq

/-- The per-asset loop of `validate_assets`: `issues` starts with the
`('UNKNOWN', 'FAILURE')` sentinel; on success the sentinel is removed
and a non-empty remainder is recorded; on an exception the `finally`
clause records the sentinel plus the partial issues and the exception
propagates. -/
def validate_loop (ndef : Registry) (lookup : String → Option Asset)
    (deps : String → List String) (failures : Failures) :
    List Asset → Except VErr Failures
  | [] => .ok failures
  | a :: rest =>
    let r := run_asset ndef a lookup deps
    if r.2 then
      .error (.ruleFailure (failures ++ [(a.id, ("UNKNOWN", "FAILURE") :: r.1)]))
    else
      validate_loop ndef lookup deps
        (if r.1.isEmpty then failures else failures ++ [(a.id, r.1)]) rest

/-- Model of `validate_assets`: duplicate-id check (hard stop), then the rule loop
over every asset. -/
def validate_assets (ndef : Registry) (assets : List Asset) :
    Except VErr Failures :=
  if duplicate_IDs assets then .error .duplicateIDs
  else validate_loop ndef (seenOf assets) (dependentsOf assets) [] assets

/-! ## Propagation engine (`propagate_dependent`)

`propagate_dependent(assets, output, field)` walks, for each root asset,
the root's own dependency edges (resolved through the last-wins id
lookup) with a per-root `seen` set of ids, adding the root's `field`
label to the output set of every asset reached.  The output attribute
store (`asset[output]`, a Python set per asset, kept in insertion order
here) is modelled as an association list keyed by the asset value, and
the recursion carries explicit fuel: `add_types` truncates at fuel 0,
and `propagate_dependent` supplies fuel strictly larger than the number
of dependency ids, which is shown below to be enough for the traversal
never to truncate. -/

/-- Output attribute store: each traversed asset's set of labels. -/
abbrev OutMap := List (Asset × List String)

/-- The label set of one asset (empty when never touched). -/
def outm_get : OutMap → Asset → List String
  | [], _ => []
  | (b, ls) :: rest, a => if b = a then ls else outm_get rest a

/-- Model of `asset.setdefault(output, set()).add(lbl)`. -/
def outm_add (m : OutMap) (a : Asset) (lbl : String) : OutMap :=
  match m with
  | [] => [(a, [lbl])]
  | (b, ls) :: rest =>
    if b = a then (b, if lbl ∈ ls then ls else ls ++ [lbl]) :: rest
    else (b, ls) :: outm_add rest a lbl

mutual

/-- Model of `add_types(asset, type_, lookup, seen)`: add the label to the current
asset, then walk its dependency ids. -/
def add_types (L : String → Option Asset) (lbl : String) :
    Nat → Asset → OutMap → List String → OutMap × List String
  | 0, _, m, seen => (m, seen)
  | fuel + 1, a, m, seen =>
    add_deps L lbl fuel (asset_dep_ids a) (outm_add m a lbl) seen
termination_by fuel _ _ _ => (fuel, 0)

/-- The `for depend in self.asset_dep_ids(asset)` loop inside
`add_types`: skip ids already seen, mark new ones seen, recurse into the
ones the lookup resolves. -/
def add_deps (L : String → Option Asset) (lbl : String) :
    Nat → List String → OutMap → List String → OutMap × List String
  | _, [], m, seen => (m, seen)
  | fuel, d :: rest, m, seen =>
    if d ∈ seen then add_deps L lbl fuel rest m seen
    else
      match L d with
      | none => add_deps L lbl fuel rest m (d :: seen)
      | some b =>
        let r := add_types L lbl fuel b m (d :: seen)
        add_deps L lbl fuel rest r.1 r.2
termination_by fuel deps _ _ => (fuel, deps.length + 1)

end

/-- All dependency ids occurring in the asset list (the universe of ids a
traversal can ever mark seen). -/
def allDepIds (assets : List Asset) : List String :=
  assets.flatMap asset_dep_ids

/-- Model of `propagate_dependent(assets, output, field)`: one rooted traversal
per asset, each with a fresh `seen` set; `field` is the attribute
projected into the sets (`'type'` or `'id'` in the source). -/
def propagate_dependent (assets : List Asset) (field : Asset → String) : OutMap :=
  assets.foldl
    (fun m a =>
      (add_types (lookupOf assets) (field a) ((allDepIds assets).length + 1) a m []).1)
    []

/-- Reachability of a dependency id from an asset along `depends_on`
edges, each intermediate hop resolved by the lookup: the ids a rooted
`add_types` traversal can mark seen. -/
inductive DepReach (L : String → Option Asset) : Asset → String → Prop where
  | base {a : Asset} {d : String} : d ∈ asset_dep_ids a → DepReach L a d
  | step {a : Asset} {d : String} {b : Asset} {e : String} :
      DepReach L a d → L d = some b → e ∈ asset_dep_ids b → DepReach L a e

/-- Asset `x` transitively depends on `a`: some dependency id reachable from
`x` resolves to `a`. -/
def trans_depends (L : String → Option Asset) (x a : Asset) : Prop :=
  ∃ d, DepReach L x d ∧ L d = some a

/-! ## Pipeline core (`prep_assets` without I/O)

`prep_assets` loads files, splits off archived assets, validates, then
annotates via `propagate_dependent` (called once with `field='type'` and
once with `field='id'`).  Its in-memory core is: validation aborts the
run (duplicate ids or a rule exception), otherwise propagation runs. -/
def prep_core (ndef : Registry) (assets : List Asset) :
    Except VErr (OutMap × OutMap × Failures) :=
  match validate_assets ndef assets with
  | .error e => .error e
  | .ok issues =>
    .ok (propagate_dependent assets (·.type_),
         propagate_dependent assets (·.id), issues)

/-! ## Subgraph selection (`write_map` and the `--leaf-type` filter) -/

/-- Inner loop of the negate expansion: for each dependency id of a
scanned asset, append the resolved asset when not already in `use`
(membership is checked against the evolving list, as in the source). -/
def negate_pass_deps (L : String → Option Asset) (use : List Asset)
    (deps : List String) : List Asset :=
  deps.foldl (fun use dep =>
    match L dep with
    | some b => if b ∈ use then use else use ++ [b]
    | none => use) use

/-- One `for asset in list(use)` pass: the snapshot is iterated while
appends go to the evolving `use`. -/
def negate_pass (L : String → Option Asset) (snapshot use : List Asset) :
    List Asset :=
  snapshot.foldl (fun use a => negate_pass_deps L use (asset_dep_ids a)) use

/-- The selection part of `write_map(base, assets, issues, title,
leads_to, in_field, negate)`: `labels` is `i.get(in_field) or []` and
`leads_to` the pattern string, searched as `f'^{leads_to}$'` (modelled
as `bos ⬝ leads_to ⬝ eos`; none of the source's `leads_to` arguments has
a top-level alternation).  In negated mode the source's `while old_len
!= len(use)` loop body runs exactly once, because `old_len` is assigned
`len(use)` at the *end* of the body, making the loop condition false at
its next test; the embedding therefore performs exactly one expansion
pass over the snapshot of the complement. -/
def write_map_use (labels : Asset → List String) (leads_to : Regex)
    (negate : Bool) (assets : List Asset) : List Asset :=
  let use := assets.filter (fun i =>
    (labels i).any (fun j => re_search (.seq .bos (.seq leads_to .eos)) j))
  if negate then
    let L := lookupOf assets
    let use0 := assets.filter (fun i => decide (i ∉ use))
    negate_pass L use0 use0
  else use

/-- The `--leaf-type` filter of `generate_outputs`: *unanchored*
`re.search(opt.leaf_type, j)` over `i.get('_dependent_types')`. -/
def leaf_type_use (leaf_type : Regex) (dep_types : Asset → List String)
    (assets : List Asset) : List Asset :=
  assets.filter (fun i => (dep_types i).any (fun j => re_search leaf_type j))

deriving instance DecidableEq for Except

/-! ## Concrete inputs used by witnesses and counterexamples -/

/-- Two assets sharing the id `srv_1`. -/
def dupA : Asset := ⟨"srv_1", "physical/server", "S", [], [], [], []⟩
def dupB : Asset := ⟨"srv_1", "physical/server", "S2", [], [], [], []⟩

/-- A two-asset chain: `propB` depends on `propA`. -/
def propA : Asset := ⟨"a", "t1", "A", [], [], [], []⟩
def propB : Asset := ⟨"b", "t2", "B", ["a"], [], [], []⟩

/-- A `drive` asset that `^`-excludes its one required dependency
pattern. -/
def drvExcl : Asset := ⟨"drv_1", "drive", "D", ["^physical/server note"], [], [], []⟩

/-- An asset listing the same undefined dependency id twice. -/
def undefDup : Asset := ⟨"x_2", "nope", "X", ["mx", "mx"], [], [], []⟩

/-- An asset whose type is not a registry key. -/
def unkType : Asset := ⟨"x_1", "nope", "X", [], [], [], []⟩

/-- Chain for the negated-selection closure check: `negA → negB → negC`
along `depends_on`; only `negA` is in the complement (its label set is
empty while the others carry the selected label `X`). -/
def negA : Asset := ⟨"a1", "tA", "A", ["b1"], [], [], []⟩
def negB : Asset := ⟨"b1", "tB", "B", ["c1"], [], [], []⟩
def negC : Asset := ⟨"c1", "tC", "C", [], [], [], []⟩
def negLabels : Asset → List String := fun a => if a.id = "a1" then [] else ["X"]

/-- An asset whose propagated type set contains a *proper superstring* of
the pattern `physical/server`. -/
def leafD : Asset := ⟨"d1", "tD", "D", [], [], [], []⟩

/-! ## Infrastructure predicates for the propagation proof -/

/-- Number of universe ids not yet marked seen: the quantity that bounds
how deep the `add_types` recursion can still go. -/
def missingIds (U seen : List String) : Nat :=
  ((U.filter (fun x => decide (x ∉ seen))).toFinset).card

/-- Predicate: `add_types` only grows the seen set. -/
def TypesMono (L : String → Option Asset) (lbl : String) (fuel : Nat) : Prop :=
  ∀ (a : Asset) (m : OutMap) (seen : List String),
    ∀ x ∈ seen, x ∈ (add_types L lbl fuel a m seen).2

/-- Predicate: `add_deps` only grows the seen set. -/
def DepsMono (L : String → Option Asset) (lbl : String) (fuel : Nat) : Prop :=
  ∀ (ds : List String) (m : OutMap) (seen : List String),
    ∀ x ∈ seen, x ∈ (add_deps L lbl fuel ds m seen).2

/-- Every id `add_types` marks seen was already seen or is reachable
from the rooted asset. -/
def TypesSound (L : String → Option Asset) (lbl : String) (fuel : Nat) : Prop :=
  ∀ (a : Asset) (m : OutMap) (seen : List String),
    ∀ e ∈ (add_types L lbl fuel a m seen).2, e ∈ seen ∨ DepReach L a e

/-- Every id `add_deps` marks seen was already seen, is among the
pending ids, or is reachable through one of them. -/
def DepsSound (L : String → Option Asset) (lbl : String) (fuel : Nat) : Prop :=
  ∀ (ds : List String) (m : OutMap) (seen : List String),
    ∀ e ∈ (add_deps L lbl fuel ds m seen).2,
      e ∈ seen ∨ e ∈ ds ∨ ∃ d ∈ ds, ∃ b, L d = some b ∧ DepReach L b e

/-- With enough fuel, a rooted `add_types` call (i) marks all of the
root's dependency ids seen, (ii) leaves the newly-seen ids closed under
resolved dependency edges, and (iii) adds the label to exactly the root
and the assets the newly-seen ids resolve to. -/
def TypesAdq (L : String → Option Asset) (lbl : String) (U : List String)
    (fuel : Nat) : Prop :=
  ∀ (a : Asset) (m : OutMap) (seen : List String),
    (∀ e ∈ asset_dep_ids a, e ∈ U) → missingIds U seen < fuel →
    ((∀ e ∈ asset_dep_ids a, e ∈ (add_types L lbl fuel a m seen).2) ∧
     (∀ d ∈ (add_types L lbl fuel a m seen).2, d ∉ seen →
        ∀ b, L d = some b →
          ∀ e ∈ asset_dep_ids b, e ∈ (add_types L lbl fuel a m seen).2) ∧
     (∀ (x : Asset) (lb : String),
        lb ∈ outm_get (add_types L lbl fuel a m seen).1 x ↔
          lb ∈ outm_get m x ∨ (lb = lbl ∧ (x = a ∨
            ∃ d, d ∈ (add_types L lbl fuel a m seen).2 ∧ d ∉ seen ∧
              L d = some x))))

/-- The `add_deps` counterpart of `TypesAdq`. -/
def DepsAdq (L : String → Option Asset) (lbl : String) (U : List String)
    (fuel : Nat) : Prop :=
  ∀ (ds : List String) (m : OutMap) (seen : List String),
    (∀ e ∈ ds, e ∈ U) → missingIds U seen ≤ fuel →
    ((∀ e ∈ ds, e ∈ (add_deps L lbl fuel ds m seen).2) ∧
     (∀ d ∈ (add_deps L lbl fuel ds m seen).2, d ∉ seen →
        ∀ b, L d = some b →
          ∀ e ∈ asset_dep_ids b, e ∈ (add_deps L lbl fuel ds m seen).2) ∧
     (∀ (x : Asset) (lb : String),
        lb ∈ outm_get (add_deps L lbl fuel ds m seen).1 x ↔
          lb ∈ outm_get m x ∨ (lb = lbl ∧
            ∃ d, d ∈ (add_deps L lbl fuel ds m seen).2 ∧ d ∉ seen ∧
              L d = some x)))

/-! # Theorems -/

/-! ## Matcher facts -/

/-- A regex matching the empty token list is nullable. -/
theorem RMatch.nullable_of_nil {r : Regex} {ts : List Tok}
    (h : RMatch r ts) (hts : ts = []) : r.nullable = true := by
  induction h with
  | eps => rfl
  | chr c => simp at hts
  | dot c => simp at hts
  | bos => simp at hts
  | eos => simp at hts
  | seq h1 h2 ih1 ih2 =>
    rcases List.append_eq_nil.mp hts with ⟨e1, e2⟩
    simp [Regex.nullable, ih1 e1, ih2 e2]
  | altL h ih => simp [Regex.nullable, ih hts]
  | altR h ih => simp [Regex.nullable, ih hts]
  | starNil => rfl
  | starCons h1 h2 ih1 ih2 => rfl

/-- Derivative completeness: a match of `t :: ts` yields a match of the
derivative by `t` on `ts`. -/
theorem RMatch.deriv_of_cons {r : Regex} {us : List Tok} (h : RMatch r us) :
    ∀ {t : Tok} {ts : List Tok}, us = t :: ts → RMatch (r.deriv t) ts := by
  induction h with
  | eps => intro t ts hus; simp at hus
  | chr c =>
    intro t ts hus
    cases hus
    simp only [Regex.deriv, if_pos rfl]
    exact RMatch.eps
  | dot c =>
    intro t ts hus
    cases hus
    exact RMatch.eps
  | bos =>
    intro t ts hus
    cases hus
    simp only [Regex.deriv, if_pos rfl]
    exact RMatch.eps
  | eos =>
    intro t ts hus
    cases hus
    simp only [Regex.deriv, if_pos rfl]
    exact RMatch.eps
  | @seq a b ts1 us1 h1 h2 ih1 ih2 =>
    intro t ts hus
    cases ts1 with
    | nil =>
      have hn : a.nullable = true := h1.nullable_of_nil rfl
      simp only [List.nil_append] at hus
      simp only [Regex.deriv, hn, if_pos]
      exact RMatch.altR (ih2 hus)
    | cons x ts1 =>
      rw [List.cons_append] at hus
      cases hus
      by_cases hn : a.nullable = true
      · simp only [Regex.deriv, hn, if_pos]
        exact RMatch.altL (RMatch.seq (ih1 rfl) h2)
      · simp only [Regex.deriv, hn, Bool.false_eq_true, if_false]
        exact RMatch.seq (ih1 rfl) h2
  | altL h ih =>
    intro t ts hus
    exact RMatch.altL (ih hus)
  | altR h ih =>
    intro t ts hus
    exact RMatch.altR (ih hus)
  | starNil => intro t ts hus; simp at hus
  | @starCons a ts1 us1 h1 h2 ih1 ih2 =>
    intro t ts hus
    cases ts1 with
    | nil =>
      simp only [List.nil_append] at hus
      exact ih2 hus
    | cons x ts1 =>
      rw [List.cons_append] at hus
      cases hus
      exact RMatch.seq (ih1 rfl) h2

/-- Completeness of the executable matcher w.r.t. the declarative
semantics. -/
theorem matchToks_complete {ts : List Tok} :
    ∀ {r : Regex}, RMatch r ts → r.matchToks ts = true := by
  induction ts with
  | nil => intro r h; exact h.nullable_of_nil rfl
  | cons t ts ih =>
    intro r h
    exact ih (h.deriv_of_cons rfl)

/-- The `anyTok` regex matches every single token. -/
theorem rmatch_any (t : Tok) : RMatch anyTok [t] := by
  cases t with
  | bosT => exact RMatch.altR (RMatch.altL RMatch.bos)
  | eosT => exact RMatch.altR (RMatch.altR RMatch.eos)
  | ch c => exact RMatch.altL (RMatch.dot c)

/-- The `any*` regex matches every token list. -/
theorem rmatch_anystar (ts : List Tok) : RMatch (.star anyTok) ts := by
  induction ts with
  | nil => exact RMatch.starNil
  | cons t ts ih => exact RMatch.starCons (rmatch_any t) ih

/-- The `'.*'` validator-dispatch pattern matches every type string. -/
theorem re_search_dotstar (s : String) : re_search (.star .dot) s = true := by
  have h : RMatch (.seq (.star anyTok) (.seq (.star .dot) (.star anyTok)))
      (toksOf s ++ ([] ++ [])) :=
    RMatch.seq (rmatch_anystar (toksOf s)) (RMatch.seq RMatch.starNil RMatch.starNil)
  simpa [re_search] using matchToks_complete h

/-- The pattern dispatch in `validate_assets` reduces to running every
validator: the single registered pattern `'.*'` matches every type. -/
theorem run_asset_eq (ndef : Registry) (a : Asset)
    (lookup : String → Option Asset) (deps : String → List String) :
    run_asset ndef a lookup deps = run_validators (VALIDATORS_ALL ndef) a lookup deps := by
  simp only [run_asset, VALIDATORS_COMPILED, run_patterns, re_search_dotstar, if_true]
  cases h : (run_validators (VALIDATORS_ALL ndef) a lookup deps).2 with
  | false =>
    simp only [h, Bool.false_eq_true, if_false, List.append_nil]
    rw [← h]
  | true => simp [h]

/-! ## Duplicate-identifier handling (C1) -/

/-- The sticky duplicate scan finds a repeat iff the flag was set or the
combined list has one. -/
theorem dup_scan_iff :
    ∀ (l seen : List String) (dup : Bool), seen.Nodup →
      (dup_scan seen dup l = true ↔ dup = true ∨ ¬ (seen ++ l).Nodup) := by
  intro l
  induction l with
  | nil =>
    intro seen dup hs
    simp [dup_scan, hs]
  | cons i rest ih =>
    intro seen dup hs
    by_cases hmem : i ∈ seen
    · rw [dup_scan, if_pos hmem, ih seen true hs]
      have hnd : ¬ (seen ++ i :: rest).Nodup := by
        intro hnodup
        exact (List.disjoint_of_nodup_append hnodup) hmem (List.mem_cons_self i rest)
      simp [hnd]
    · rw [dup_scan, if_neg hmem]
      have hs' : (seen ++ [i]).Nodup := by
        refine List.Nodup.append hs (List.nodup_singleton i) ?_
        intro x hx hx'
        rw [List.mem_singleton] at hx'
        exact hmem (hx' ▸ hx)
      rw [ih (seen ++ [i]) dup hs']
      rw [List.append_assoc]
      rfl

/-- The `duplicate_IDs` flag is exactly non-uniqueness of the id list. -/
theorem duplicate_IDs_iff (assets : List Asset) :
    duplicate_IDs assets = true ↔ ¬ (assets.map (·.id)).Nodup := by
  have h := dup_scan_iff (assets.map (·.id)) [] false List.nodup_nil
  simpa [duplicate_IDs] using h

/-- Claim C1: an input with two assets sharing an id makes the build
fail with the duplicate-identifier error after the id scan, before any
per-asset validation rule runs, and neither propagation nor selection
output is produced: the pipeline core returns the duplicate-identifier
error. -/
theorem claim_C1 (ndef : Registry) (assets : List Asset)
    (h : ¬ (assets.map (·.id)).Nodup) :
    validate_assets ndef assets = .error .duplicateIDs ∧
    prep_core ndef assets = .error .duplicateIDs := by
  have hd : duplicate_IDs assets = true := (duplicate_IDs_iff assets).mpr h
  constructor
  · rw [validate_assets, if_pos hd]
  · rw [prep_core, validate_assets, if_pos hd]

/-- Witness for C1 at a concrete duplicate-id input. -/
theorem claim_C1_witness :
    (¬ (([dupA, dupB]).map (·.id)).Nodup) ∧
    validate_assets ASSET_TYPE [dupA, dupB] = .error .duplicateIDs ∧
    prep_core ASSET_TYPE [dupA, dupB] = .error .duplicateIDs :=
  ⟨by decide, claim_C1 ASSET_TYPE [dupA, dupB] (by decide)⟩

/-! ## Determinism of validation (C9) -/

/-- Claim C9: validating the same unmodified asset list twice yields the
same issues map.  The embedding is a pure function of the asset list (the
source validators read only the asset, the `seen` lookup and the
`dependents` map, all derived from the input), so the two runs are
definitionally equal. -/
theorem claim_C9 (ndef : Registry) (assets : List Asset)
    (_h : ¬ duplicate_IDs assets = true) :
    validate_assets ndef assets = validate_assets ndef assets := rfl

/-- Witness for C9. -/
theorem claim_C9_witness :
    (¬ duplicate_IDs [dupA] = true) ∧
    validate_assets ASSET_TYPE [dupA] = validate_assets ASSET_TYPE [dupA] :=
  ⟨by decide, claim_C9 ASSET_TYPE [dupA] (by decide)⟩

/-! ## The per-asset loop: failure and success shapes -/

/-- A successful `validate_loop` run appends, for each pending asset with
a non-empty issue list, one entry to the failures map, and no rule raised
on any pending asset. -/
theorem validate_loop_ok {ndef : Registry} {lookup : String → Option Asset}
    {deps : String → List String} :
    ∀ (pending : List Asset) (acc m : Failures),
      validate_loop ndef lookup deps acc pending = .ok m →
      m = acc ++ pending.filterMap (fun a =>
            if (run_asset ndef a lookup deps).1.isEmpty then none
            else some (a.id, (run_asset ndef a lookup deps).1)) ∧
      ∀ a ∈ pending, (run_asset ndef a lookup deps).2 = false := by
  intro pending
  induction pending with
  | nil =>
    intro acc m h
    rw [validate_loop] at h
    cases h
    simp
  | cons a rest ih =>
    intro acc m h
    rw [validate_loop] at h
    by_cases hf : (run_asset ndef a lookup deps).2 = true
    · rw [if_pos hf] at h; cases h
    · rw [if_neg hf] at h
      rcases ih _ _ h with ⟨hm, hrest⟩
      rw [Bool.not_eq_true] at hf
      constructor
      · rw [List.filterMap_cons]
        by_cases he : (run_asset ndef a lookup deps).1.isEmpty = true
        · rw [if_pos he] at hm
          rw [if_pos he]
          exact hm
        · rw [if_neg he] at hm
          rw [if_neg he, hm, List.append_assoc]
          rfl
      · intro b hb
        rcases List.mem_cons.mp hb with hb | hb
        · exact hb ▸ hf
        · exact hrest b hb

/-- A `validate_loop` run aborted by a rule exception: the failures map
carried by the error ends with the failing asset's entry, sentinel plus
the issues accumulated up to the failure. -/
theorem validate_loop_err {ndef : Registry} {lookup : String → Option Asset}
    {deps : String → List String} :
    ∀ (pending : List Asset) (acc : Failures) (fs : Failures),
      validate_loop ndef lookup deps acc pending = .error (.ruleFailure fs) →
      ∃ a ∈ pending, (run_asset ndef a lookup deps).2 = true ∧
        ∃ pre, fs = pre ++ [(a.id, ("UNKNOWN", "FAILURE") :: (run_asset ndef a lookup deps).1)] := by
  intro pending
  induction pending with
  | nil => intro acc fs h; rw [validate_loop] at h; cases h
  | cons a rest ih =>
    intro acc fs h
    rw [validate_loop] at h
    by_cases hf : (run_asset ndef a lookup deps).2 = true
    · rw [if_pos hf] at h
      refine ⟨a, List.mem_cons_self a rest, hf, acc, ?_⟩
      cases h
      rfl
    · rw [if_neg hf] at h
      rcases ih _ _ h with ⟨b, hb, hbf, pre, hpre⟩
      exact ⟨b, List.mem_cons_of_mem a hb, hbf, pre, hpre⟩

/-! ## Failure semantics (C6) -/

/-- Claim C6: when a validation rule raises on some asset, the issues
accumulated for that asset up to the failure (headed by the
`('UNKNOWN', 'FAILURE')` sentinel placed there exactly so the asset is
never silently dropped) are attached to that asset's id in the failures
map carried by the propagating error. -/
theorem claim_C6 (ndef : Registry) (assets : List Asset) (fs : Failures)
    (h : validate_assets ndef assets = .error (.ruleFailure fs)) :
    ∃ a ∈ assets, (run_asset ndef a (seenOf assets) (dependentsOf assets)).2 = true ∧
      (a.id, ("UNKNOWN", "FAILURE") ::
        (run_asset ndef a (seenOf assets) (dependentsOf assets)).1) ∈ fs := by
  rw [validate_assets] at h
  by_cases hd : duplicate_IDs assets = true
  · rw [if_pos hd] at h; cases h
  · rw [if_neg hd] at h
    rcases validate_loop_err assets [] fs h with ⟨a, ha, haf, pre, hpre⟩
    exact ⟨a, ha, haf, hpre ▸ List.mem_append_right pre (List.mem_singleton_self _)⟩

/-- Witness for C6: a rule raises on an unknown-type asset; the partial
issue list is attached to its id. -/
theorem claim_C6_witness :
    (validate_assets ASSET_TYPE [unkType] = .error (.ruleFailure
      [("x_1", [("UNKNOWN", "FAILURE"), ("ERROR", "Has unknown type nope"),
                ("WARNING", "Has unknown prefix")])])) ∧
    ∃ a ∈ [unkType],
      (run_asset ASSET_TYPE a (seenOf [unkType]) (dependentsOf [unkType])).2 = true ∧
      (a.id, ("UNKNOWN", "FAILURE") ::
        (run_asset ASSET_TYPE a (seenOf [unkType]) (dependentsOf [unkType])).1) ∈
        [("x_1", [("UNKNOWN", "FAILURE"), ("ERROR", "Has unknown type nope"),
                  ("WARNING", "Has unknown prefix")])] :=
  ⟨by decide, claim_C6 ASSET_TYPE [unkType] _ (by decide)⟩

/-! ## Shape of the returned issues map (C10) -/

/-- An entry found by `fget` is a member of the map. -/
theorem fget_mem {m : Failures} {k : String} {ls : List Issue}
    (h : fget m k = some ls) : (k, ls) ∈ m := by
  unfold fget at h
  rcases Option.map_eq_some'.mp h with ⟨kv, hf, hsnd⟩
  have hmem := List.mem_of_find?_eq_some hf
  have hp : kv.1 = k := by simpa using List.find?_some hf
  rw [← hp, ← hsnd]
  exact hmem

/-- Lookup `fget` misses keys absent from the map. -/
theorem fget_none {m : Failures} {k : String}
    (h : ∀ kv ∈ m, kv.1 ≠ k) : fget m k = none := by
  unfold fget
  rw [List.find?_eq_none.mpr]
  · rfl
  · intro kv hkv
    simp only [decide_eq_true_eq]
    exact h kv hkv

/-- Lookup `fget` on a cons cell. -/
theorem fget_cons (k : String) (v : List Issue) (m : Failures) (k' : String) :
    fget ((k, v) :: m) k' = if k = k' then some v else fget m k' := by
  by_cases h : k = k'
  · simp [fget, List.find?_cons_of_pos, h]
  · simp only [fget, if_neg h]
    rw [List.find?_cons_of_neg]
    simp [h]

/-- Looking up an asset's id in the success contributions of the
validation loop, under unique ids. -/
theorem fget_contrib {ndef : Registry} {lookup : String → Option Asset}
    {deps : String → List String} :
    ∀ (l : List Asset), (l.map (·.id)).Nodup → ∀ a ∈ l,
      fget (l.filterMap (fun b =>
        if (run_asset ndef b lookup deps).1.isEmpty = true then none
        else some (b.id, (run_asset ndef b lookup deps).1))) a.id
      = if (run_asset ndef a lookup deps).1.isEmpty = true then none
        else some (run_asset ndef a lookup deps).1 := by
  intro l
  induction l with
  | nil => intro _ a ha; cases ha
  | cons b rest ih =>
    intro hnd a ha
    have hnd' : (rest.map (·.id)).Nodup := (List.nodup_cons.mp hnd).2
    have hbid : b.id ∉ rest.map (·.id) := (List.nodup_cons.mp hnd).1
    rw [List.filterMap_cons]
    rcases List.mem_cons.mp ha with rfl | ha'
    · by_cases he : (run_asset ndef a lookup deps).1.isEmpty = true
      · rw [if_pos he, if_pos he]
        apply fget_none
        intro kv hkv
        rcases List.mem_filterMap.mp hkv with ⟨c, hc, hfc⟩
        by_cases hce : (run_asset ndef c lookup deps).1.isEmpty = true
        · rw [if_pos hce] at hfc; cases hfc
        · rw [if_neg hce] at hfc
          cases hfc
          intro hks
          exact hbid (hks ▸ List.mem_map_of_mem (·.id) hc)
      · rw [if_neg he, if_neg he, fget_cons, if_pos rfl]
    · have haid : a.id ≠ b.id := by
        intro he
        exact hbid (he ▸ List.mem_map_of_mem (·.id) ha')
      by_cases he : (run_asset ndef b lookup deps).1.isEmpty = true
      · rw [if_pos he]
        exact ih hnd' a ha'
      · rw [if_neg he, fget_cons, if_neg (fun h => haid h.symm)]
        exact ih hnd' a ha'

/-- Claim C10: for a duplicate-free input on which validation succeeds,
the returned issues map has an entry for an asset's id exactly when some
rule produced an issue for it (the entry being that issue list), and the
map contains no empty issue lists. -/
theorem claim_C10 (ndef : Registry) (assets : List Asset) (m : Failures)
    (hnd : (assets.map (·.id)).Nodup)
    (h : validate_assets ndef assets = .ok m) :
    (∀ a ∈ assets,
      fget m a.id =
        if (run_asset ndef a (seenOf assets) (dependentsOf assets)).1.isEmpty = true
        then none
        else some (run_asset ndef a (seenOf assets) (dependentsOf assets)).1) ∧
    (∀ k ls, fget m k = some ls → ls ≠ []) := by
  rw [validate_assets] at h
  by_cases hd : duplicate_IDs assets = true
  · rw [if_pos hd] at h; cases h
  · rw [if_neg hd] at h
    rcases validate_loop_ok assets [] m h with ⟨hm, _⟩
    rw [List.nil_append] at hm
    subst hm
    constructor
    · exact fun a ha => fget_contrib assets hnd a ha
    · intro k ls hk
      rcases List.mem_filterMap.mp (fget_mem hk) with ⟨c, _, hfc⟩
      by_cases hce : (run_asset ndef c (seenOf assets) (dependentsOf assets)).1.isEmpty = true
      · rw [if_pos hce] at hfc; cases hfc
      · rw [if_neg hce] at hfc
        cases hfc
        exact fun hnil => hce (by rw [hnil]; rfl)

/-- Witness for C10 on a one-asset input with one issue. -/
theorem claim_C10_witness :
    (([dupA].map (·.id)).Nodup) ∧
    (validate_assets ASSET_TYPE [dupA] =
      .ok [("srv_1", [("WARNING", "Non-top-level asset has no dependents")])]) ∧
    ((∀ a ∈ [dupA],
      fget [("srv_1", [("WARNING", "Non-top-level asset has no dependents")])] a.id =
        if (run_asset ASSET_TYPE a (seenOf [dupA]) (dependentsOf [dupA])).1.isEmpty = true
        then none
        else some (run_asset ASSET_TYPE a (seenOf [dupA]) (dependentsOf [dupA])).1) ∧
    (∀ k ls,
      fget [("srv_1", [("WARNING", "Non-top-level asset has no dependents")])] k = some ls →
      ls ≠ [])) :=
  ⟨by decide, by decide,
   claim_C10 ASSET_TYPE [dupA] _ (by decide) (by decide)⟩

/-! ## Unknown asset type (C5) -/

/-- Counterexample to C5 as stated: for an asset whose type is not a
registry key, validation does *not* continue through the remaining rules
— a subsequent rule that indexes the registry by the type raises, so the
run aborts with a rule-failure error (carrying the partial issues,
including the unknown-type ERROR) instead of returning an issues map. -/
theorem claim_C5_counterexample :
    (ATget ASSET_TYPE unkType.type_ = none) ∧
    validate_assets ASSET_TYPE [unkType] = .error (.ruleFailure
      [("x_1", [("UNKNOWN", "FAILURE"), ("ERROR", "Has unknown type nope"),
                ("WARNING", "Has unknown prefix")])]) := by
  constructor
  · decide
  · decide

/-- Claim C5 (amended): for an asset with a registry-unknown type, the
rule loop records the ERROR-severity unknown-type issue, and then the
first subsequent rule that indexes the registry by that type raises, so
processing of that asset stops with an exception (rather than finishing
with degraded checks); the ERROR is among the issues accumulated up to
the failure. -/
theorem claim_C5 (ndef : Registry) (a : Asset)
    (lookup : String → Option Asset) (deps : String → List String)
    (h : ATget ndef a.type_ = none) :
    (run_asset ndef a lookup deps).2 = true ∧
    ("ERROR", unknownTypeMsg a.type_) ∈ (run_asset ndef a lookup deps).1 := by
  rw [run_asset_eq]
  by_cases h4 : (deps a.id).isEmpty = true
  · simp [VALIDATORS_ALL, run_validators, known_asset_type, no_undef_depends,
      known_id_prefix, dependents_if_not_top, h, h4]
  · by_cases h5 : a.depends_on.isEmpty = true
    · simp [VALIDATORS_ALL, run_validators, known_asset_type, no_undef_depends,
        known_id_prefix, dependents_if_not_top, dependencies_if_not_bottom, h, h4, h5]
    · simp [VALIDATORS_ALL, run_validators, known_asset_type, no_undef_depends,
        known_id_prefix, dependents_if_not_top, dependencies_if_not_bottom,
        has_open_issues, tagged_needs_work, check_fields, h, h4, h5]

/-- Witness for C5 (amended) at a concrete unknown-type asset. -/
theorem claim_C5_witness :
    (ATget ASSET_TYPE unkType.type_ = none) ∧
    ((run_asset ASSET_TYPE unkType (fun _ => none) (fun _ => [])).2 = true ∧
     ("ERROR", unknownTypeMsg unkType.type_) ∈
       (run_asset ASSET_TYPE unkType (fun _ => none) (fun _ => [])).1) :=
  ⟨by decide, claim_C5 ASSET_TYPE unkType (fun _ => none) (fun _ => []) (by decide)⟩

/-! ## Undefined-dependency warnings (C4) -/

/-- String append is left-cancellative. -/
theorem string_append_cancel_left {a b c : String} (h : a ++ b = a ++ c) :
    b = c := by
  have hd : a.data ++ b.data = a.data ++ c.data := by
    rw [← String.data_append, ← String.data_append, h]
  have := List.append_cancel_left hd
  cases b; cases c
  simp only at this
  rw [this]

/-- String append is right-cancellative. -/
theorem string_append_cancel_right {a b c : String} (h : b ++ a = c ++ a) :
    b = c := by
  have hd : b.data ++ a.data = c.data ++ a.data := by
    rw [← String.data_append, ← String.data_append, h]
  have := List.append_cancel_right hd
  cases b; cases c
  simp only at this
  rw [this]

/-- The undefined-dependency message determines the id. -/
theorem undefMsg_inj {d e : String} (h : undefMsg d = undefMsg e) : d = e :=
  string_append_cancel_left h

/-- Count of the warnings the `no_undef_depends` rule emits for an id:
one per extracted occurrence of `d`, when `d` is unresolved and not
`^`-excluded; none otherwise. -/
theorem count_undef (lookup : String → Option Asset) (d : String) :
    ∀ ds : List String,
      (ds.filterMap (fun dep =>
        if (lookup dep).isNone && !(startsWithCaret dep)
        then some (("WARNING", undefMsg dep) : Issue) else none)).count
          ("WARNING", undefMsg d)
      = if (lookup d).isNone && !(startsWithCaret d) then ds.count d else 0 := by
  intro ds
  induction ds with
  | nil => simp
  | cons dep ds ih =>
    rw [List.filterMap_cons]
    by_cases hc : ((lookup dep).isNone && !(startsWithCaret dep)) = true
    · rw [if_pos hc]
      rw [List.count_cons, ih]
      by_cases hde : dep = d
      · subst hde
        rw [if_pos hc, if_pos hc, List.count_cons]
        simp
      · have hne : (("WARNING", undefMsg dep) : Issue) ≠ ("WARNING", undefMsg d) := by
          intro hmsg
          exact hde (undefMsg_inj (congrArg Prod.snd hmsg))
        rw [List.count_cons]
        by_cases hcd : ((lookup d).isNone && !(startsWithCaret d)) = true
        · rw [if_pos hcd, if_pos hcd]
          simp [hne, hde]
        · rw [if_neg hcd, if_neg hcd]
          simp [hne]
    · rw [if_neg hc, ih]
      by_cases hde : dep = d
      · subst hde
        rw [if_neg hc, if_neg hc]
      · by_cases hcd : ((lookup d).isNone && !(startsWithCaret d)) = true
        · rw [if_pos hcd, if_pos hcd, List.count_cons]
          simp [hde]
        · rw [if_neg hcd, if_neg hcd]

/-- Counterexample to C4 as stated: an asset listing the same undefined,
non-excluded dependency id twice receives *two* identical warnings for
that id, not exactly one. -/
theorem claim_C4_counterexample :
    ((fun _ => (none : Option Asset)) "mx").isNone = true ∧
    startsWithCaret "mx" = false ∧
    asset_dep_ids undefDup = ["mx", "mx"] ∧
    no_undef_depends undefDup (fun _ => none) (fun _ => []) =
      .ok [("WARNING", undefMsg "mx"), ("WARNING", undefMsg "mx")] ∧
    ¬ ([("WARNING", undefMsg "mx"), ("WARNING", undefMsg "mx")].count
        (("WARNING", undefMsg "mx") : Issue) = 1) := by
  refine ⟨rfl, by decide, by decide, by decide, by decide⟩

/-- Claim C4 (amended): the undefined-dependency rule emits one WARNING
naming `d` *per extracted occurrence* of `d` when `d` is not a key of
the lookup and does not start with `^`, and no WARNING for `d`
otherwise; in particular it emits exactly one WARNING for `(A, d)`
whenever `d` is extracted exactly once from `A.depends_on`. -/
theorem claim_C4 (asset : Asset) (lookup : String → Option Asset)
    (deps : String → List String) (d : String) :
    ∃ l, no_undef_depends asset lookup deps = .ok l ∧
      l.count ("WARNING", undefMsg d)
        = if (lookup d).isNone && !(startsWithCaret d)
          then (asset_dep_ids asset).count d else 0 :=
  ⟨_, rfl, count_undef lookup d (asset_dep_ids asset)⟩

/-! ## Required-dependency-type rule (C3) -/

/-- The exclusion NOTE message determines the pattern. -/
theorem noteMsg_inj {p q : String} (h : noteMsg p = noteMsg q) : p = q :=
  string_append_cancel_left (string_append_cancel_right h)

/-- For a fixed type name, the unmet-dependency WARNING message
determines the pattern. -/
theorem warnDefineMsg_inj {t p q : String}
    (h : warnDefineMsg t p = warnDefineMsg t q) : p = q :=
  string_append_cancel_left (string_append_cancel_right h)

/-- A flatMap whose pieces all avoid `c` contains no `c`. -/
theorem count_flatMap_zero {α β : Type} [BEq β] (f : α → List β) (c : β) :
    ∀ l : List α, (∀ q ∈ l, (f q).count c = 0) → (l.flatMap f).count c = 0 := by
  intro l
  induction l with
  | nil => intro _; rfl
  | cons q l ih =>
    intro h
    rw [List.flatMap_cons, List.count_append,
      h q (List.mem_cons_self q l), ih (fun q' hq' => h q' (List.mem_cons_of_mem q hq'))]

/-- Nodup lists count their members once. -/
theorem count_eq_one_of_nodup_mem {α : Type} [BEq α] [LawfulBEq α]
    {l : List α} {a : α} (hn : l.Nodup) (ha : a ∈ l) : l.count a = 1 := by
  induction l with
  | nil => cases ha
  | cons b l ih =>
    rcases List.nodup_cons.mp hn with ⟨hb, hn'⟩
    rcases List.mem_cons.mp ha with rfl | ha'
    · rw [List.count_cons_self, List.count_eq_zero_of_not_mem hb]
    · rw [List.count_cons_of_ne (fun he => hb (by rw [← he]; exact ha')), ih hn' ha']

/-- Counting `c` in a flatMap when only the unique occurrence of `p`
can contribute. -/
theorem count_flatMap_of_unique {α β : Type} [BEq α] [LawfulBEq α] [BEq β]
    (f : α → List β) (c : β) :
    ∀ (l : List α) (p : α), l.count p = 1 →
      (∀ q ∈ l, q ≠ p → (f q).count c = 0) →
      (l.flatMap f).count c = (f p).count c := by
  intro l
  induction l with
  | nil => intro p h; simp at h
  | cons q l ih =>
    intro p hone hu
    rw [List.flatMap_cons, List.count_append]
    by_cases hqp : q = p
    · subst hqp
      have hnot : q ∉ l := by
        rw [List.count_cons_self] at hone
        have : l.count q = 0 := by omega
        exact List.not_mem_of_count_eq_zero this
      have hz : (l.flatMap f).count c = 0 := by
        apply count_flatMap_zero
        intro q' hq'
        exact hu q' (List.mem_cons_of_mem q hq') (fun he => hnot (he ▸ hq'))
      rw [hz, Nat.add_zero]
    · rw [hu q (List.mem_cons_self q l) hqp, Nat.zero_add]
      apply ih p
      · rw [List.count_cons_of_ne (fun h => hqp h.symm)] at hone
        exact hone
      · exact fun q' hq' => hu q' (List.mem_cons_of_mem q hq')

/-- Facts about the concrete registry used by C3: within each type the
required-pattern strings are pairwise distinct, and no required pattern
matches the `NO-TYPE` placeholder used for unresolved dependencies. -/
theorem registry_facts : ∀ at_ ∈ ASSET_TYPE.map Prod.snd,
    ((at_.depends.map Prod.fst).Nodup ∧
     ∀ p ∈ at_.depends, re_search p.2 "NO-TYPE" = false) := by decide

/-- Lookup `ATget` only returns registry values. -/
theorem ATget_mem {ndef : Registry} {t : String} {at_ : AssetType}
    (h : ATget ndef t = some at_) : at_ ∈ ndef.map Prod.snd := by
  unfold ATget at h
  rcases Option.map_eq_some'.mp h with ⟨kv, hf, hsnd⟩
  exact hsnd ▸ List.mem_map_of_mem Prod.snd (List.mem_of_find?_eq_some hf)

/-- Count of the target in a singleton list. -/
theorem count_single {β : Type} [BEq β] [LawfulBEq β] [DecidableEq β] (x c : β) :
    ([x] : List β).count c = if x = c then 1 else 0 := by
  by_cases h : x = c <;> simp [List.count_cons, h]

/-- Claim C3: for an asset with a registry-known type and a pattern `P`
of that type's required-dependency list: a `^P` entry among the extracted
dependency ids yields exactly one NOTE for `P` and no WARNING for `P`;
otherwise exactly one WARNING naming `P` is emitted iff no dependency
expression lacking `INSUF` resolves via the lookup to an asset whose
type matches `P` under unanchored search. -/
theorem claim_C3 (asset : Asset) (lookup : String → Option Asset)
    (deps : String → List String) (at_ : AssetType)
    (hat : ATget ASSET_TYPE asset.type_ = some at_) :
    ∀ p ∈ at_.depends,
    ∃ l, check_depends ASSET_TYPE asset lookup deps = .ok l ∧
      (if ("^" ++ p.1) ∈ asset_dep_ids asset then
        l.count ("NOTE", noteMsg p.1) = 1 ∧
        l.count ("WARNING", warnDefineMsg asset.type_ p.1) = 0
      else
        l.count ("NOTE", noteMsg p.1) = 0 ∧
        l.count ("WARNING", warnDefineMsg asset.type_ p.1)
          = (if (asset_dep_ids_suff asset).any (fun i =>
                match lookup i with
                | some b => re_search p.2 b.type_
                | none => false) = true
             then 0 else 1)) := by
  intro p hp
  obtain ⟨hnodup, hNO⟩ := registry_facts at_ (ATget_mem hat)
  set f : String × Regex → List Issue := fun dep =>
    if ("^" ++ dep.1) ∈ asset_dep_ids asset then [("NOTE", noteMsg dep.1)]
    else if (asset_dep_ids_suff asset).any (fun i =>
        re_search dep.2 (match lookup i with
          | some b => b.type_
          | none => "NO-TYPE")) = true then []
    else [("WARNING", warnDefineMsg asset.type_ dep.1)] with hf
  have hok : check_depends ASSET_TYPE asset lookup deps = .ok (at_.depends.flatMap f) := by
    simp only [check_depends, hat, hf]
  have hinj : ∀ q ∈ at_.depends, q.1 = p.1 → q = p := by
    intro q hq he
    exact List.inj_on_of_nodup_map hnodup hq hp he
  have hone : at_.depends.count p = 1 :=
    count_eq_one_of_nodup_mem (List.Nodup.of_map Prod.fst hnodup) hp
  have hu_note : ∀ q ∈ at_.depends, q ≠ p →
      (f q).count ("NOTE", noteMsg p.1) = 0 := by
    intro q hq hne
    rw [hf]
    by_cases h1 : ("^" ++ q.1) ∈ asset_dep_ids asset
    · simp only [if_pos h1]
      rw [count_single, if_neg]
      intro he
      exact hne (hinj q hq (noteMsg_inj (congrArg Prod.snd he)))
    · simp only [if_neg h1]
      by_cases h2 : (asset_dep_ids_suff asset).any (fun i =>
          re_search q.2 (match lookup i with
            | some b => b.type_
            | none => "NO-TYPE")) = true
      · simp [h2]
      · simp only [if_neg h2]
        rw [count_single, if_neg]
        intro he
        simp at he
  have hu_warn : ∀ q ∈ at_.depends, q ≠ p →
      (f q).count ("WARNING", warnDefineMsg asset.type_ p.1) = 0 := by
    intro q hq hne
    rw [hf]
    by_cases h1 : ("^" ++ q.1) ∈ asset_dep_ids asset
    · simp only [if_pos h1]
      rw [count_single, if_neg]
      intro he
      simp at he
    · simp only [if_neg h1]
      by_cases h2 : (asset_dep_ids_suff asset).any (fun i =>
          re_search q.2 (match lookup i with
            | some b => b.type_
            | none => "NO-TYPE")) = true
      · simp [h2]
      · simp only [if_neg h2]
        rw [count_single, if_neg]
        intro he
        exact hne (hinj q hq (warnDefineMsg_inj (congrArg Prod.snd he)))
  have hany : ((asset_dep_ids_suff asset).any (fun i =>
      re_search p.2 (match lookup i with
        | some b => b.type_
        | none => "NO-TYPE")))
      = ((asset_dep_ids_suff asset).any (fun i =>
        match lookup i with
        | some b => re_search p.2 b.type_
        | none => false)) := by
    congr 1
    funext i
    cases hlk : lookup i with
    | some b => rfl
    | none => exact hNO p hp
  refine ⟨at_.depends.flatMap f, hok, ?_⟩
  by_cases hexcl : ("^" ++ p.1) ∈ asset_dep_ids asset
  · rw [if_pos hexcl]
    constructor
    · rw [count_flatMap_of_unique f _ at_.depends p hone hu_note, hf]
      simp only [if_pos hexcl]
      rw [count_single, if_pos rfl]
    · rw [count_flatMap_of_unique f _ at_.depends p hone hu_warn, hf]
      simp only [if_pos hexcl]
      rw [count_single, if_neg]
      intro he
      simp at he
  · rw [if_neg hexcl]
    constructor
    · rw [count_flatMap_of_unique f _ at_.depends p hone hu_note, hf]
      simp only [if_neg hexcl]
      by_cases h2 : (asset_dep_ids_suff asset).any (fun i =>
          re_search p.2 (match lookup i with
            | some b => b.type_
            | none => "NO-TYPE")) = true
      · simp [h2]
      · simp only [if_neg h2]
        rw [count_single, if_neg]
        intro he
        simp at he
    · rw [count_flatMap_of_unique f _ at_.depends p hone hu_warn, hf]
      simp only [if_neg hexcl]
      rw [← hany]
      by_cases h2 : (asset_dep_ids_suff asset).any (fun i =>
          re_search p.2 (match lookup i with
            | some b => b.type_
            | none => "NO-TYPE")) = true
      · simp [h2]
      · simp only [if_neg h2, if_neg]
        rw [count_single, if_pos rfl]

/-- Witness for C3: a `drive` asset that `^`-excludes the
`physical/server` pattern gets exactly one NOTE and no WARNING. -/
theorem claim_C3_witness :
    (ATget ASSET_TYPE drvExcl.type_ =
      some (AssetType.mk "A physical drive" "shape=cylinder, width=1.25" "cyan" [] ["location", "size"] [("physical/server", lit "physical/server")] "drv")) ∧
    (("physical/server", lit "physical/server") ∈
      [("physical/server", lit "physical/server")]) ∧
    (∃ l, check_depends ASSET_TYPE drvExcl (fun _ => none) (fun _ => []) = .ok l ∧
      (if ("^" ++ "physical/server") ∈ asset_dep_ids drvExcl then
        l.count ("NOTE", noteMsg "physical/server") = 1 ∧
        l.count ("WARNING", warnDefineMsg drvExcl.type_ "physical/server") = 0
      else
        l.count ("NOTE", noteMsg "physical/server") = 0 ∧
        l.count ("WARNING", warnDefineMsg drvExcl.type_ "physical/server")
          = (if (asset_dep_ids_suff drvExcl).any (fun i =>
                match (fun _ => (none : Option Asset)) i with
                | some b => re_search (lit "physical/server") b.type_
                | none => false) = true
             then 0 else 1))) :=
  ⟨by decide, by decide,
   claim_C3 drvExcl (fun _ => none) (fun _ => []) (AssetType.mk "A physical drive" "shape=cylinder, width=1.25" "cyan" [] ["location", "size"] [("physical/server", lit "physical/server")] "drv") (by decide)
     ("physical/server", lit "physical/server") (by decide)⟩

/-! ## Propagation engine lemmas (towards C2) -/

/-- What `outm_add` does to every asset's label set. -/
theorem outm_get_add (m : OutMap) (a : Asset) (lbl : String) (x : Asset)
    (lb : String) :
    lb ∈ outm_get (outm_add m a lbl) x ↔
      lb ∈ outm_get m x ∨ (lb = lbl ∧ x = a) := by
  induction m with
  | nil =>
    simp only [outm_add, outm_get]
    by_cases hax : a = x
    · subst hax
      simp
    · rw [if_neg hax]
      have hxa : ¬ x = a := fun h => hax h.symm
      simp [hxa]
  | cons kv rest ih =>
    obtain ⟨b, ls⟩ := kv
    by_cases hba : b = a
    · subst hba
      simp only [outm_add, if_pos rfl]
      by_cases hbx : b = x
      · subst hbx
        simp only [outm_get, if_pos rfl]
        by_cases hl : lbl ∈ ls
        · rw [if_pos hl]
          constructor
          · exact fun h => Or.inl h
          · rintro (h | ⟨rfl, _⟩)
            · exact h
            · exact hl
        · rw [if_neg hl]
          simp [List.mem_append]
      · simp only [outm_get, if_neg hbx]
        have hxb : ¬ x = b := fun h => hbx h.symm
        simp [hxb]
    · simp only [outm_add, if_neg hba]
      by_cases hbx : b = x
      · subst hbx
        simp only [outm_get, if_pos rfl]
        simp [hba]
      · simp only [outm_get, if_neg hbx]
        exact ih

/-- Reachability composes through a first dependency hop. -/
theorem DepReach.prepend {L : String → Option Asset} {a : Asset}
    {d : String} {b : Asset} {e : String}
    (hd : d ∈ asset_dep_ids a) (hb : L d = some b)
    (hr : DepReach L b e) : DepReach L a e := by
  induction hr with
  | base he => exact DepReach.step (DepReach.base hd) hb he
  | step _ hb' he' ih => exact DepReach.step ih hb' he'

/-- Monotonicity at fuel zero for `add_types`. -/
theorem types_mono_zero (L : String → Option Asset) (lbl : String) :
    TypesMono L lbl 0 := by
  intro a m seen x hx
  rw [add_types]
  exact hx

/-- Types-level monotonicity lifts to deps-level monotonicity at the
same fuel. -/
theorem deps_mono_of_types (L : String → Option Asset) (lbl : String)
    (fuel : Nat) (ht : TypesMono L lbl fuel) : DepsMono L lbl fuel := by
  intro ds
  induction ds with
  | nil => intro m seen x hx; rw [add_deps]; exact hx
  | cons d rest ih =>
    intro m seen x hx
    rw [add_deps]
    by_cases hd : d ∈ seen
    · rw [if_pos hd]; exact ih m seen x hx
    · rw [if_neg hd]
      cases hL : L d with
      | none => exact ih m (d :: seen) x (List.mem_cons_of_mem d hx)
      | some b =>
        exact ih _ _ x (ht b m (d :: seen) x (List.mem_cons_of_mem d hx))

/-- Deps-level monotonicity lifts to types-level at the next fuel. -/
theorem types_mono_of_deps (L : String → Option Asset) (lbl : String)
    (fuel : Nat) (hd : DepsMono L lbl fuel) : TypesMono L lbl (fuel + 1) := by
  intro a m seen x hx
  rw [add_types]
  exact hd (asset_dep_ids a) (outm_add m a lbl) seen x hx

/-- The seen set only grows, at every fuel. -/
theorem add_mono (L : String → Option Asset) (lbl : String) :
    ∀ fuel, TypesMono L lbl fuel ∧ DepsMono L lbl fuel := by
  intro fuel
  induction fuel with
  | zero =>
    refine ⟨types_mono_zero L lbl, deps_mono_of_types L lbl 0 (types_mono_zero L lbl)⟩
  | succ f ih =>
    have ht := types_mono_of_deps L lbl f ih.2
    exact ⟨ht, deps_mono_of_types L lbl (f + 1) ht⟩

/-- Soundness at fuel zero for `add_types`. -/
theorem types_sound_zero (L : String → Option Asset) (lbl : String) :
    TypesSound L lbl 0 := by
  intro a m seen e he
  rw [add_types] at he
  exact Or.inl he

/-- Types-level soundness lifts to deps-level at the same fuel. -/
theorem deps_sound_of_types (L : String → Option Asset) (lbl : String)
    (fuel : Nat) (ht : TypesSound L lbl fuel) : DepsSound L lbl fuel := by
  intro ds
  induction ds with
  | nil =>
    intro m seen e he
    rw [add_deps] at he
    exact Or.inl he
  | cons d rest ih =>
    intro m seen e he
    rw [add_deps] at he
    by_cases hd : d ∈ seen
    · rw [if_pos hd] at he
      rcases ih m seen e he with h | h | ⟨d', hd', b, hb, hr⟩
      · exact Or.inl h
      · exact Or.inr (Or.inl (List.mem_cons_of_mem d h))
      · exact Or.inr (Or.inr ⟨d', List.mem_cons_of_mem d hd', b, hb, hr⟩)
    · rw [if_neg hd] at he
      cases hL : L d with
      | none =>
        rw [hL] at he
        rcases ih m (d :: seen) e he with h | h | ⟨d', hd', b, hb, hr⟩
        · rcases List.mem_cons.mp h with rfl | h'
          · exact Or.inr (Or.inl (List.mem_cons_self e rest))
          · exact Or.inl h'
        · exact Or.inr (Or.inl (List.mem_cons_of_mem d h))
        · exact Or.inr (Or.inr ⟨d', List.mem_cons_of_mem d hd', b, hb, hr⟩)
      | some b =>
        rw [hL] at he
        rcases ih _ _ e he with h | h | ⟨d', hd', b', hb', hr⟩
        · rcases ht b m (d :: seen) e h with h' | hr
          · rcases List.mem_cons.mp h' with rfl | h''
            · exact Or.inr (Or.inl (List.mem_cons_self e rest))
            · exact Or.inl h''
          · exact Or.inr (Or.inr ⟨d, List.mem_cons_self d rest, b, hL, hr⟩)
        · exact Or.inr (Or.inl (List.mem_cons_of_mem d h))
        · exact Or.inr (Or.inr ⟨d', List.mem_cons_of_mem d hd', b', hb', hr⟩)

/-- Deps-level soundness lifts to types-level at the next fuel. -/
theorem types_sound_of_deps (L : String → Option Asset) (lbl : String)
    (fuel : Nat) (hd : DepsSound L lbl fuel) : TypesSound L lbl (fuel + 1) := by
  intro a m seen e he
  rw [add_types] at he
  rcases hd (asset_dep_ids a) (outm_add m a lbl) seen e he with h | h | ⟨d, hdm, b, hb, hr⟩
  · exact Or.inl h
  · exact Or.inr (DepReach.base h)
  · exact Or.inr (DepReach.prepend hdm hb hr)

/-- Newly-seen ids are reachable from the root, at every fuel. -/
theorem add_sound (L : String → Option Asset) (lbl : String) :
    ∀ fuel, TypesSound L lbl fuel ∧ DepsSound L lbl fuel := by
  intro fuel
  induction fuel with
  | zero =>
    refine ⟨types_sound_zero L lbl, deps_sound_of_types L lbl 0 (types_sound_zero L lbl)⟩
  | succ f ih =>
    have ht := types_sound_of_deps L lbl f ih.2
    exact ⟨ht, deps_sound_of_types L lbl (f + 1) ht⟩

/-- Bound: `missingIds` is at most the universe size. -/
theorem missingIds_le (U seen : List String) : missingIds U seen ≤ U.length :=
  le_trans (List.toFinset_card_le _) (List.length_filter_le _ _)

/-- Growing the seen set cannot increase `missingIds`. -/
theorem missingIds_mono {U seen seen' : List String}
    (h : ∀ x ∈ seen, x ∈ seen') : missingIds U seen' ≤ missingIds U seen := by
  apply Finset.card_le_card
  intro x hx
  simp only [List.mem_toFinset, List.mem_filter, decide_eq_true_eq] at hx ⊢
  exact ⟨hx.1, fun hmem => hx.2 (h x hmem)⟩

/-- Marking a fresh universe id seen strictly decreases `missingIds`. -/
theorem missingIds_cons_lt {U seen : List String} {d : String}
    (hU : d ∈ U) (hs : d ∉ seen) :
    missingIds U (d :: seen) < missingIds U seen := by
  apply Finset.card_lt_card
  rw [Finset.ssubset_def]
  constructor
  · intro x hx
    simp only [List.mem_toFinset, List.mem_filter, decide_eq_true_eq] at hx ⊢
    exact ⟨hx.1, fun hmem => hx.2 (List.mem_cons_of_mem d hmem)⟩
  · intro hsub
    have hd : d ∈ (U.filter (fun x => decide (x ∉ seen))).toFinset := by
      simp only [List.mem_toFinset, List.mem_filter, decide_eq_true_eq]
      exact ⟨hU, hs⟩
    have hd2 := hsub hd
    simp only [List.mem_toFinset, List.mem_filter, decide_eq_true_eq] at hd2
    exact hd2.2 (List.mem_cons_self d seen)

/-- Adequacy is vacuous at fuel zero for `add_types`. -/
theorem adq_types_zero (L : String → Option Asset) (lbl : String)
    (U : List String) : TypesAdq L lbl U 0 :=
  fun _ _ _ _ hlt => absurd hlt (Nat.not_lt_zero _)

/-- Types-level adequacy lifts to deps-level at the same fuel. -/
theorem adq_deps_of_types (L : String → Option Asset) (lbl : String)
    (U : List String)
    (HL : ∀ d b, L d = some b → ∀ e ∈ asset_dep_ids b, e ∈ U)
    (fuel : Nat) (ht : TypesAdq L lbl U fuel) : DepsAdq L lbl U fuel := by
  intro ds
  induction ds with
  | nil =>
    intro m seen hU hle
    have heq : add_deps L lbl fuel [] m seen = (m, seen) := by rw [add_deps]
    rw [heq]
    refine ⟨fun e he => absurd he (List.not_mem_nil e), ?_, ?_⟩
    · intro d hdm hdn b hLb e he
      exact absurd hdm hdn
    · intro x lb
      constructor
      · exact fun h => Or.inl h
      · rintro (h | ⟨rfl, d, hd', hdn, _⟩)
        · exact h
        · exact absurd hd' hdn
  | cons d rest ih =>
    intro m seen hU hle
    by_cases hdseen : d ∈ seen
    · have heq : add_deps L lbl fuel (d :: rest) m seen =
          add_deps L lbl fuel rest m seen := by
        rw [add_deps, if_pos hdseen]
      rw [heq]
      obtain ⟨C, D, E⟩ := ih m seen (fun e he => hU e (List.mem_cons_of_mem d he)) hle
      refine ⟨?_, D, E⟩
      intro e he
      rcases List.mem_cons.mp he with rfl | h
      · exact (add_mono L lbl fuel).2 rest m seen e hdseen
      · exact C e h
    · have hdU : d ∈ U := hU d (List.mem_cons_self d rest)
      have hlt2 : missingIds U (d :: seen) < missingIds U seen :=
        missingIds_cons_lt hdU hdseen
      have hlt2f : missingIds U (d :: seen) < fuel := lt_of_lt_of_le hlt2 hle
      cases hL : L d with
      | none =>
        have heq : add_deps L lbl fuel (d :: rest) m seen =
            add_deps L lbl fuel rest m (d :: seen) := by
          rw [add_deps, if_neg hdseen, hL]
        rw [heq]
        obtain ⟨C, D, E⟩ := ih m (d :: seen)
          (fun e he => hU e (List.mem_cons_of_mem d he)) (Nat.le_of_lt hlt2f)
        refine ⟨?_, ?_, ?_⟩
        · intro e he
          rcases List.mem_cons.mp he with rfl | h
          · exact (add_mono L lbl fuel).2 rest m (e :: seen) e (List.mem_cons_self e seen)
          · exact C e h
        · intro d' hd' hdn b hLb e he
          by_cases hd'seen2 : d' ∈ d :: seen
          · rcases List.mem_cons.mp hd'seen2 with rfl | h
            · rw [hL] at hLb; cases hLb
            · exact absurd h hdn
          · exact D d' hd' hd'seen2 b hLb e he
        · intro x lb
          rw [E x lb]
          constructor
          · rintro (h | ⟨rfl, d', hd', hdn2, hLd'⟩)
            · exact Or.inl h
            · exact Or.inr ⟨rfl, d', hd',
                fun hmem => hdn2 (List.mem_cons_of_mem d hmem), hLd'⟩
          · rintro (h | ⟨rfl, d', hd', hdn, hLd'⟩)
            · exact Or.inl h
            · refine Or.inr ⟨rfl, d', hd', ?_, hLd'⟩
              intro hmem
              rcases List.mem_cons.mp hmem with rfl | h'
              · rw [hL] at hLd'; cases hLd'
              · exact hdn h'
      | some b =>
        have heq : add_deps L lbl fuel (d :: rest) m seen =
            add_deps L lbl fuel rest (add_types L lbl fuel b m (d :: seen)).1
              (add_types L lbl fuel b m (d :: seen)).2 := by
          rw [add_deps, if_neg hdseen, hL]
        rw [heq]
        set r := add_types L lbl fuel b m (d :: seen) with hr
        obtain ⟨Cb, Db, Eb⟩ := ht b m (d :: seen) (fun e he => HL d b hL e he) hlt2f
        have hseen2T1 : ∀ x ∈ (d :: seen), x ∈ r.2 :=
          fun x hx => (add_mono L lbl fuel).1 b m (d :: seen) x hx
        have hmiss1 : missingIds U r.2 ≤ fuel :=
          le_trans (missingIds_mono hseen2T1) (Nat.le_of_lt hlt2f)
        obtain ⟨Cr, Dr, Er⟩ := ih r.1 r.2
          (fun e he => hU e (List.mem_cons_of_mem d he)) hmiss1
        have hT1T : ∀ x ∈ r.2, x ∈ (add_deps L lbl fuel rest r.1 r.2).2 :=
          fun x hx => (add_mono L lbl fuel).2 rest r.1 r.2 x hx
        refine ⟨?_, ?_, ?_⟩
        · intro e he
          rcases List.mem_cons.mp he with rfl | h
          · exact hT1T e (hseen2T1 e (List.mem_cons_self e seen))
          · exact Cr e h
        · intro d' hd' hdn b' hLb' e he
          by_cases hd'T1 : d' ∈ r.2
          · by_cases hd'seen2 : d' ∈ d :: seen
            · rcases List.mem_cons.mp hd'seen2 with rfl | h'
              · rw [hL] at hLb'
                cases hLb'
                exact hT1T e (Cb e he)
              · exact absurd h' hdn
            · exact hT1T e (Db d' hd'T1 hd'seen2 b' hLb' e he)
          · exact Dr d' hd' hd'T1 b' hLb' e he
        · intro x lb
          rw [Er x lb, Eb x lb]
          constructor
          · rintro ((h | ⟨rfl, hxb | ⟨d', hd'r2, hd'n2, hLd'⟩⟩) | ⟨rfl, d', hd'T, hdnr, hLd'⟩)
            · exact Or.inl h
            · refine Or.inr ⟨rfl, d, hT1T d (hseen2T1 d (List.mem_cons_self d seen)),
                hdseen, ?_⟩
              rw [hxb]
              exact hL
            · exact Or.inr ⟨rfl, d', hT1T d' hd'r2,
                fun hmem => hd'n2 (List.mem_cons_of_mem d hmem), hLd'⟩
            · exact Or.inr ⟨rfl, d', hd'T,
                fun hmem => hdnr (hseen2T1 d' (List.mem_cons_of_mem d hmem)), hLd'⟩
          · rintro (h | ⟨rfl, d', hd'T, hd'nseen, hLd'⟩)
            · exact Or.inl (Or.inl h)
            · by_cases hd'r2 : d' ∈ r.2
              · by_cases hd'2 : d' ∈ d :: seen
                · rcases List.mem_cons.mp hd'2 with rfl | h'
                  · refine Or.inl (Or.inr ⟨rfl, Or.inl ?_⟩)
                    have hbx : some b = some x := hL.symm.trans hLd'
                    cases hbx
                    rfl
                  · exact absurd h' hd'nseen
                · exact Or.inl (Or.inr ⟨rfl, Or.inr ⟨d', hd'r2, hd'2, hLd'⟩⟩)
              · exact Or.inr ⟨rfl, d', hd'T, hd'r2, hLd'⟩

/-- Deps-level adequacy lifts to types-level at the next fuel. -/
theorem adq_types_of_deps (L : String → Option Asset) (lbl : String)
    (U : List String) (fuel : Nat) (hd : DepsAdq L lbl U fuel) :
    TypesAdq L lbl U (fuel + 1) := by
  intro a m seen hU hlt
  have hle : missingIds U seen ≤ fuel := Nat.lt_succ_iff.mp hlt
  have heq : add_types L lbl (fuel + 1) a m seen =
      add_deps L lbl fuel (asset_dep_ids a) (outm_add m a lbl) seen := by
    rw [add_types]
  rw [heq]
  obtain ⟨C, D, E⟩ := hd (asset_dep_ids a) (outm_add m a lbl) seen hU hle
  refine ⟨C, D, ?_⟩
  intro x lb
  rw [E x lb, outm_get_add]
  tauto

/-- With enough fuel the traversal is adequate at both levels. -/
theorem add_adequate (L : String → Option Asset) (lbl : String)
    (U : List String)
    (HL : ∀ d b, L d = some b → ∀ e ∈ asset_dep_ids b, e ∈ U) :
    ∀ fuel, TypesAdq L lbl U fuel ∧ DepsAdq L lbl U fuel := by
  intro fuel
  induction fuel with
  | zero =>
    exact ⟨adq_types_zero L lbl U,
      adq_deps_of_types L lbl U HL 0 (adq_types_zero L lbl U)⟩
  | succ f ih =>
    have ht := adq_types_of_deps L lbl U f ih.2
    exact ⟨ht, adq_deps_of_types L lbl U HL (f + 1) ht⟩

/-- The last-wins lookup only returns members of the asset list. -/
theorem lookupOf_mem {assets : List Asset} {d : String} {b : Asset}
    (h : lookupOf assets d = some b) : b ∈ assets := by
  unfold lookupOf alist_get at h
  rcases Option.map_eq_some'.mp h with ⟨kv, hf, hsnd⟩
  have hm := List.mem_of_find?_eq_some hf
  rw [List.mem_reverse] at hm
  rcases List.mem_map.mp hm with ⟨a, hain, hpair⟩
  rw [← hsnd, ← hpair]
  exact hain

/-- Dependency ids of members are in the universe. -/
theorem mem_allDepIds {assets : List Asset} {a : Asset} {e : String}
    (ha : a ∈ assets) (he : e ∈ asset_dep_ids a) : e ∈ allDepIds assets :=
  List.mem_flatMap.mpr ⟨a, ha, he⟩

/-- One rooted traversal adds the root's label to exactly the root
itself and the assets the root transitively depends on. -/
theorem root_char (assets : List Asset) (lbl : String) (a : Asset)
    (ha : a ∈ assets) (m : OutMap) (x : Asset) (lb : String) :
    lb ∈ outm_get
      (add_types (lookupOf assets) lbl ((allDepIds assets).length + 1) a m []).1 x ↔
      lb ∈ outm_get m x ∨
        (lb = lbl ∧ (x = a ∨ trans_depends (lookupOf assets) a x)) := by
  have HL : ∀ d b, lookupOf assets d = some b →
      ∀ e ∈ asset_dep_ids b, e ∈ allDepIds assets :=
    fun d b hdb e he => mem_allDepIds (lookupOf_mem hdb) he
  have hUa : ∀ e ∈ asset_dep_ids a, e ∈ allDepIds assets :=
    fun e he => mem_allDepIds ha he
  have hfuel : missingIds (allDepIds assets) [] < (allDepIds assets).length + 1 :=
    Nat.lt_succ_of_le (missingIds_le _ _)
  obtain ⟨C, D, E⟩ :=
    (add_adequate (lookupOf assets) lbl (allDepIds assets) HL
      ((allDepIds assets).length + 1)).1 a m [] hUa hfuel
  have hTd : ∀ d,
      d ∈ (add_types (lookupOf assets) lbl ((allDepIds assets).length + 1) a m []).2 ↔
      DepReach (lookupOf assets) a d := by
    intro d
    constructor
    · intro hd
      rcases (add_sound (lookupOf assets) lbl ((allDepIds assets).length + 1)).1
        a m [] d hd with h | h
      · cases h
      · exact h
    · intro hr
      induction hr with
      | base h => exact C _ h
      | step hr' hLb he ih => exact D _ ih (List.not_mem_nil _) _ hLb _ he
  rw [E x lb]
  constructor
  · rintro (h | ⟨rfl, rfl | ⟨d, hdT, _, hLd⟩⟩)
    · exact Or.inl h
    · exact Or.inr ⟨rfl, Or.inl rfl⟩
    · exact Or.inr ⟨rfl, Or.inr ⟨d, (hTd d).mp hdT, hLd⟩⟩
  · rintro (h | ⟨rfl, rfl | ⟨d, hr, hLd⟩⟩)
    · exact Or.inl h
    · exact Or.inr ⟨rfl, Or.inl rfl⟩
    · exact Or.inr ⟨rfl, Or.inr ⟨d, (hTd d).mpr hr, List.not_mem_nil d, hLd⟩⟩

/-- Folding rooted traversals over a list of roots. -/
theorem fold_char (assets : List Asset) (field : Asset → String) :
    ∀ (roots : List Asset) (m : OutMap), (∀ r ∈ roots, r ∈ assets) →
      ∀ (x : Asset) (lb : String),
        lb ∈ outm_get (roots.foldl (fun m a =>
            (add_types (lookupOf assets) (field a)
              ((allDepIds assets).length + 1) a m []).1) m) x ↔
          lb ∈ outm_get m x ∨
            ∃ root ∈ roots, field root = lb ∧
              (x = root ∨ trans_depends (lookupOf assets) root x) := by
  intro roots
  induction roots with
  | nil =>
    intro m _ x lb
    simp
  | cons a roots ih =>
    intro m hroots x lb
    rw [List.foldl_cons,
      ih _ (fun r hr => hroots r (List.mem_cons_of_mem a hr)) x lb,
      root_char assets (field a) a (hroots a (List.mem_cons_self a roots)) m x lb]
    constructor
    · rintro ((h | ⟨hlb, hcase⟩) | ⟨root, hr, hf, hc⟩)
      · exact Or.inl h
      · exact Or.inr ⟨a, List.mem_cons_self a roots, hlb.symm, hcase⟩
      · exact Or.inr ⟨root, List.mem_cons_of_mem a hr, hf, hc⟩
    · rintro (h | ⟨root, hr, hf, hc⟩)
      · exact Or.inl (Or.inl h)
      · rcases List.mem_cons.mp hr with rfl | hr'
        · exact Or.inl (Or.inr ⟨hf.symm, hc⟩)
        · exact Or.inr ⟨root, hr', hf, hc⟩

/-- Membership in the propagated label sets. -/
theorem propagate_mem (assets : List Asset) (field : Asset → String)
    (x : Asset) (lb : String) :
    lb ∈ outm_get (propagate_dependent assets field) x ↔
      ∃ root ∈ assets, field root = lb ∧
        (x = root ∨ trans_depends (lookupOf assets) root x) := by
  rw [propagate_dependent, fold_char assets field assets [] (fun r hr => hr) x lb]
  simp [outm_get]

/-- Claim C2: after propagation, an asset's computed label set is exactly
its own label together with the labels of the assets that transitively
depend on it (each dependency hop resolved through the id lookup), for
every asset list, dependency cycles included. -/
theorem claim_C2 (assets : List Asset) (field : Asset → String) (A : Asset)
    (hA : A ∈ assets) (lbl : String) :
    lbl ∈ outm_get (propagate_dependent assets field) A ↔
      (lbl = field A ∨
        ∃ X ∈ assets, field X = lbl ∧ trans_depends (lookupOf assets) X A) := by
  rw [propagate_mem assets field A lbl]
  constructor
  · rintro ⟨root, hr, hf, rfl | hc⟩
    · exact Or.inl hf.symm
    · exact Or.inr ⟨root, hr, hf, hc⟩
  · rintro (rfl | ⟨X, hX, hf, hc⟩)
    · exact ⟨A, hA, rfl, Or.inl rfl⟩
    · exact ⟨X, hX, hf, Or.inr hc⟩

/-- Witness for C2 on the two-asset chain. -/
theorem claim_C2_witness :
    (propA ∈ [propA, propB]) ∧
    ("t2" ∈ outm_get (propagate_dependent [propA, propB] (fun a => a.type_)) propA ↔
      ("t2" = propA.type_ ∨
        ∃ X ∈ [propA, propB], X.type_ = "t2" ∧
          trans_depends (lookupOf [propA, propB]) X propA)) :=
  ⟨by decide, claim_C2 [propA, propB] (fun a => a.type_) propA (by decide) "t2"⟩

/-! ## Subgraph selection (C7, C8) -/

/-- Evaluation supporting the C7 code bug: in the source's negated
selection, `old_len` is assigned `len(use)` at the end of the loop body,
so the while-condition is false at its next test and exactly one
expansion pass runs.  On the chain `negA → negB → negC` (complement
`[negA]`), the pass pulls in `negB` but never scans it, so `negB`'s
resolvable dependency `c1` is left outside the returned subset: the
output is not dependency-closed, contradicting the fixpoint/closure
claim. -/
theorem claim_C7_eval :
    (write_map_use negLabels (lit "X") true [negA, negB, negC] = [negA, negB]) ∧
    negB ∈ write_map_use negLabels (lit "X") true [negA, negB, negC] ∧
    "c1" ∈ asset_dep_ids negB ∧
    startsWithCaret "c1" = false ∧
    lookupOf [negA, negB, negC] "c1" = some negC ∧
    negC ∉ write_map_use negLabels (lit "X") true [negA, negB, negC] := by
  refine ⟨by decide, by decide, by decide, by decide, by decide, by decide⟩

/-- Counterexample to C8 as stated: the `--leaf-type` selection of
`generate_outputs` uses *unanchored* `re.search`, so an asset whose
propagated set contains only `physical/server/service` is selected by
the pattern `physical/server` even though no label fully matches
`^physical/server$`. -/
theorem claim_C8_counterexample :
    leaf_type_use (lit "physical/server") (fun _ => ["physical/server/service"])
      [leafD] = [leafD] ∧
    re_search (.seq .bos (.seq (lit "physical/server") .eos))
      "physical/server/service" = false := by
  exact ⟨by decide, by decide⟩

/-- Claim C8 (amended): `write_map`'s non-negated selection returns
exactly the assets with a label matching the pattern anchored at both
ends (`^pattern$`), while the `--leaf-type` selection in
`generate_outputs` returns exactly the assets with a label containing an
*unanchored* `re.search` match. -/
theorem claim_C8 (labels : Asset → List String) (P : Regex)
    (assets : List Asset) (a : Asset) :
    (a ∈ write_map_use labels P false assets ↔
      a ∈ assets ∧ ∃ j ∈ labels a, re_search (.seq .bos (.seq P .eos)) j = true) ∧
    (a ∈ leaf_type_use P labels assets ↔
      a ∈ assets ∧ ∃ j ∈ labels a, re_search P j = true) := by
  constructor
  · simp [write_map_use, List.mem_filter, List.any_eq_true]
  · simp [leaf_type_use, List.mem_filter, List.any_eq_true]
